import Mathlib

/-!
Shallow embedding of `src/extensions/terminal-suggest/src/env/pathExecutableCache.ts`.

The TypeScript module exposes a `PathExecutableCache` class (a PATH-keyed cache
of executable completion resources), a private per-directory scanner
`_getExecutablesInPath`, a `refresh` invalidation operation, a configuration
change handler (Windows executable-extension setting), and a free function
`watchPathDirectories` that sets up filesystem watches over PATH directories.

Filesystem and host (vscode) interactions are modelled by an explicit record of
effectful operations, each returning `Except Unit _` so that a rejected promise
is an `Except.error`. JavaScript string and collection operations that the code
relies on (split on a one-character separator, `toLowerCase`, `Set` insertion
order) are given small structural Lean counterparts so every definition
evaluates by kernel reduction.

The `async` fan-out of the scanner over PATH directories appears twice:
  * a deterministic sequential schedule (`runScans`) used by the cache-level
    definitions, and
  * an explicit interleaving machine (`ScanTask` / `stepSystem`) whose steps
    are the suspension points (`await`s) of the source, used to analyse the
    shared label set under concurrency.
-/

namespace PathExecCache

/-- JavaScript `String.prototype.toLowerCase`, modelled for ASCII characters
(the only keys the code compares are ASCII, e.g. `PATH` / `Path`). -/
def toLowerStr (s : String) : String :=
  String.mk (s.data.map Char.toLower)

/-- Auxiliary structural splitter over the character list. -/
def splitAux (c : Char) : List Char → List Char → List (List Char)
  | [], cur => [cur.reverse]
  | x :: xs, cur =>
    if x = c then cur.reverse :: splitAux c xs []
    else splitAux c xs (x :: cur)

/-- JavaScript `String.prototype.split` with a one-character separator string,
as used by `pathValue.split(isWindows ? ';' : ':')` and
`envPath.split(path.delimiter)` in the source. -/
def splitOnSepChar (s : String) (c : Char) : List String :=
  (splitAux c s.data []).map String.mk

/-- JavaScript `Set.prototype.add` on a string set modelled as an
insertion-ordered duplicate-free list: adding a present element is a no-op. -/
def setAdd (l : List String) (x : String) : List String :=
  if l.contains x then l else l ++ [x]

/-- An environment mapping (`ITerminalEnvironment` in the source):
`{ [key: string]: string | undefined }`, with JavaScript object key order
modelled by list order. A key may be present and still map to `undefined`. -/
abbrev ITerminalEnvironment := List (String × Option String)

/-- JavaScript property access `env[key]`: the value stored under the first
matching key, `none` when the key is absent or its value is `undefined`. -/
def lookupEnv (env : ITerminalEnvironment) (key : String) : Option String :=
  (env.find? (fun kv => kv.1 == key)).bind Prod.snd

/-- The Windows executable-extension configuration
(`{ [key: string]: boolean | undefined }` in the source). -/
abbrev WindowsExeExtensions := List (String × Option Bool)

/-- Modelled from the spec: the shell-type hint enumeration
(`TerminalShellType`, imported from `terminalSuggestMain`, which is not among
the provided sources); only the Git Bash member is special-cased by the cache. -/
inductive TerminalShellType
  | GitBash
  | Bash
  | Zsh
  | Fish
  | PowerShell
deriving DecidableEq, Repr

/-- Completion item kind; the scanner only ever uses the `Method` member of
vscode's `TerminalCompletionItemKind`. -/
inductive TerminalCompletionItemKind
  | Method
deriving DecidableEq, Repr

/-- A completion resource (`ICompletionResource` in the source): label,
documentation string and kind. -/
structure ICompletionResource where
  label : String
  documentation : String
  kind : TerminalCompletionItemKind
deriving DecidableEq, Repr

/-- vscode `FileType.Unknown`. -/
def fileTypeUnknown : Nat := 0
/-- vscode `FileType.File`. -/
def fileTypeFile : Nat := 1
/-- vscode `FileType.Directory`. -/
def fileTypeDirectory : Nat := 2
/-- vscode `FileType.SymbolicLink`. -/
def fileTypeSymbolicLink : Nat := 64

/-- The effectful filesystem and helper operations the module calls, as an
explicit record. `Except.error ()` models a rejected promise / thrown error.
`isExecutable` is the helper from `helpers/executable` (not among the provided
sources), taking the path and the cached Windows executable-extension
configuration; it is kept fully abstract. -/
structure FileSystem where
  /-- Result of `fs.stat(path).then(stat => stat.isDirectory())` before the
  `.catch`: `.error ()` when the stat itself rejects. -/
  statIsDirectory : String → Except Unit Bool
  /-- Result of `vscode.workspace.fs.readDirectory`: entry names with their
  vscode `FileType` bitmask value. -/
  readDirectory : String → Except Unit (List (String × Nat))
  /-- Result of `fs.lstat(path)` followed by `.isSymbolicLink()`. -/
  lstatIsSymbolicLink : String → Except Unit Bool
  /-- Result of `fs.realpath`. -/
  realpath : String → Except Unit String
  /-- Result of `isExecutable(path, cachedWindowsExeExtensions)`. -/
  isExecutable : String → Option WindowsExeExtensions → Except Unit Bool

/-- Modelled from the spec: the filesystem path of
`vscode.Uri.joinPath(vscode.Uri.file(dirPath), file)` (the `vscode.Uri` API is
an external collaborator), rendered with the platform path separator. -/
def resourceFsPath (dirPath sep file : String) : String :=
  dirPath ++ sep ++ file

/-- Modelled from the spec: `getFriendlyResourcePath` from `helpers/uri` (not
among the provided sources) renders the entry path for display using the given
path separator. -/
def getFriendlyResourcePath (dirPath sep file : String) : String :=
  dirPath ++ sep ++ file

/-- One iteration of the entry loop of `_getExecutablesInPath`
(source lines 108-156), acting on the accumulated result set and the shared
label set. `Except.error labels` models an error that the loop body does NOT
catch (the `isExecutable` call at line 145 is outside every inner
`try`/`catch`), carrying the label set as mutated so far, since the shared
`Set` object keeps its prior insertions when the enclosing call fails. -/
def processEntry (fs : FileSystem) (exts : Option WindowsExeExtensions)
    (dirPath sep : String) (file : String) (fileType : Nat)
    (acc : List ICompletionResource × List String) :
    Except (List String) (List ICompletionResource × List String) :=
  -- Skip unknown or directory file types early (line 114)
  if fileType == fileTypeUnknown || fileType == fileTypeDirectory then
    .ok acc
  else
    let fsPath := resourceFsPath dirPath sep file
    match fs.lstatIsSymbolicLink fsPath with
    | .error _ => .ok acc   -- catch at line 133: skip unreadable entries
    | .ok isLink =>
      if isLink then
        -- inner try at lines 121-131: realpath then isExecutable on the target
        match fs.realpath fsPath with
        | .error _ => .ok acc
        | .ok symlinkRealPath =>
          match fs.isExecutable symlinkRealPath exts with
          | .error _ => .ok acc
          | .ok isExec =>
            if !isExec then .ok acc
            else
              -- kind = Method, formattedPath = `${fsPath} -> ${realpath}`
              let formattedPath := fsPath ++ " -> " ++ symlinkRealPath
              if acc.2.contains file then .ok acc   -- labels.has (line 141)
              else
                -- kind === Method short-circuits the line-145 isExecutable call
                .ok (acc.1 ++ [⟨file, formattedPath, .Method⟩], setAdd acc.2 file)
      else
        let formattedPath := getFriendlyResourcePath dirPath sep file
        if acc.2.contains file then .ok acc   -- labels.has (line 141)
        else
          -- the line-145 isExecutable call; a rejection here is uncaught
          match fs.isExecutable formattedPath exts with
          | .error _ => .error acc.2
          | .ok isExec =>
            if !isExec then .ok acc
            else .ok (acc.1 ++ [⟨file, formattedPath, .Method⟩], setAdd acc.2 file)

/-- The entry loop of `_getExecutablesInPath` over the directory listing.
An uncaught error aborts the loop, keeping the label set mutations. -/
def scanEntries (fs : FileSystem) (exts : Option WindowsExeExtensions)
    (dirPath sep : String) :
    List (String × Nat) → (List ICompletionResource × List String) →
    Except (List String) (List ICompletionResource × List String)
  | [], acc => .ok acc
  | (file, fileType) :: rest, acc =>
    match processEntry fs exts dirPath sep file fileType acc with
    | .error labels => .error labels
    | .ok acc2 => scanEntries fs exts dirPath sep rest acc2

/-- The private per-directory scanner `_getExecutablesInPath`
(source lines 99-162), run to completion on one directory. Returns the
produced result set (`none` models the `undefined` returned when the directory
is missing, not a directory, or any uncaught error occurs) together with the
shared label set after this call. -/
def _getExecutablesInPath (fs : FileSystem) (exts : Option WindowsExeExtensions)
    (dirPath sep : String) (labels : List String) :
    Option (List ICompletionResource) × List String :=
  -- dirExists: fs.stat(...).isDirectory() with .catch(() => false) (line 101)
  let dirExists := match fs.statIsDirectory dirPath with
    | .error _ => false
    | .ok b => b
  if !dirExists then (none, labels)
  else
    match fs.readDirectory dirPath with
    | .error _ => (none, labels)   -- outer catch at line 158
    | .ok files =>
      match scanEntries fs exts dirPath sep files ([], labels) with
      | .error labels2 => (none, labels2)   -- outer catch at line 158
      | .ok (result, labels2) => (some result, labels2)

/-- The cached value `{ completionResources, labels }` published at source
line 95. Both fields are always populated there, so they are non-optional. -/
structure CacheEntry where
  completionResources : List ICompletionResource
  labels : List String
deriving DecidableEq, Repr

/-- The mutable fields of the `PathExecutableCache` class:
`_cachedPathValue`, `_cachedWindowsExeExtensions` and `_cachedExes`. -/
structure CacheState where
  cachedPathValue : Option String
  cachedWindowsExeExtensions : Option WindowsExeExtensions
  cachedExes : Option CacheEntry
deriving DecidableEq, Repr

/-- The state right after the constructor runs: nothing cached;
`_cachedWindowsExeExtensions` holds the configuration read on the
Windows-family platform (`none` elsewhere or when the setting is unset). -/
def initState (exts : Option WindowsExeExtensions) : CacheState :=
  { cachedPathValue := none, cachedWindowsExeExtensions := exts, cachedExes := none }

/-- The `refresh` method (source lines 44-47): unconditionally clears the
cached entry and the remembered PATH value. Total, hence never throws. -/
def refresh (s : CacheState) : CacheState :=
  { s with cachedExes := none, cachedPathValue := none }

/-- The configuration-change handler registered by the constructor
(source lines 29-34). The subscription exists only on the Windows-family
platform, and the body fires only when the change affects the executable
extensions setting; it stores the freshly read configuration and drops the
cached entry, touching nothing else. -/
def onConfigurationChanged (isWindows affects : Bool)
    (freshExts : Option WindowsExeExtensions) (s : CacheState) : CacheState :=
  if isWindows && affects then
    { s with cachedWindowsExeExtensions := freshExts, cachedExes := none }
  else s

/-- PATH resolution of `getExecutablesInPath` (source lines 51-63): Git Bash
uses the process-level PATH; otherwise Windows finds the first environment key
lowercasing to `path` and reads it; otherwise the `PATH` property is read
directly. -/
def resolvePathValue (isWindows : Bool) (processEnv env : ITerminalEnvironment)
    (shellType : Option TerminalShellType) : Option String :=
  if shellType == some TerminalShellType.GitBash then
    lookupEnv processEnv "PATH"
  else if isWindows then
    match (env.map Prod.fst).find? (fun key => toLowerStr key == "path") with
    | some caseSensitivePathKey => lookupEnv env caseSensitivePathKey
    | none => none
  else
    lookupEnv env "PATH"

/-- Specification restatement of the PATH resolution policy (spec section 4.3),
kept for comparison against `resolvePathValue`: the first PATH-equivalent
environment entry is used on the Windows-family platform. -/
def resolvePathValueSpec (isWindows : Bool) (processEnv env : ITerminalEnvironment)
    (shellType : Option TerminalShellType) : Option String :=
  if shellType == some TerminalShellType.GitBash then
    lookupEnv processEnv "PATH"
  else if isWindows then
    (env.find? (fun kv => toLowerStr kv.1 == "path")).bind Prod.snd
  else
    lookupEnv env "PATH"

/-- The fan-out loop over the split PATH (source lines 76-91) under the
sequential schedule: each directory scan runs to completion before the next
starts, threading the shared label set. Returns the per-directory result sets
in PATH order together with the final label set. -/
def runScans (fs : FileSystem) (exts : Option WindowsExeExtensions)
    (sep : String) : List String → List String →
    List (Option (List ICompletionResource)) × List String
  | [], labels => ([], labels)
  | p :: rest, labels =>
    let (r, labels2) := _getExecutablesInPath fs exts p sep labels
    let (rs, labels3) := runScans fs exts sep rest labels2
    (r :: rs, labels3)

/-- The merge loop (source lines 83-91): non-absent result sets are unioned in
PATH order. The result `Set` holds distinct freshly constructed objects, so it
is modelled as the concatenation list. -/
def mergeResultSets (resultSets : List (Option (List ICompletionResource))) :
    List ICompletionResource :=
  resultSets.foldl (fun acc r => match r with | some s => acc ++ s | none => acc) []

/-- One full cache fill for a resolved PATH value (source lines 74-95): split
the PATH on the platform path-list separator, scan every directory with a fresh
shared label set, and merge. -/
def computeEntry (fs : FileSystem) (isWindows : Bool)
    (exts : Option WindowsExeExtensions) (pathValue : String) : CacheEntry :=
  let paths := splitOnSepChar pathValue (if isWindows then ';' else ':')
  let pathSeparator := if isWindows then "\\" else "/"
  let (resultSets, labels) := runScans fs exts pathSeparator paths []
  { completionResources := mergeResultSets resultSets, labels := labels }

/-- Outcome of one `getExecutablesInPath` call: the returned value, the state
of the cache afterwards, and whether the call performed a cache fill (reached
the scanner dispatch loop at source lines 74-80; when it did, the scanner ran
once per split PATH piece, hence at least once). -/
structure LookupResult where
  result : Option CacheEntry
  state : CacheState
  didScan : Bool
deriving DecidableEq, Repr

/-- The public `getExecutablesInPath` method (source lines 49-97): resolve the
PATH value (absent resolution returns `undefined`), serve the cached entry
when one exists and the remembered PATH value matches, otherwise fill and
publish. -/
def getExecutablesInPath (fs : FileSystem) (isWindows : Bool)
    (processEnv env : ITerminalEnvironment)
    (shellType : Option TerminalShellType) (s : CacheState) : LookupResult :=
  match resolvePathValue isWindows processEnv env shellType with
  | none => ⟨none, s, false⟩
  | some pathValue =>
    if s.cachedExes.isSome ∧ s.cachedPathValue = some pathValue then
      ⟨s.cachedExes, s, false⟩
    else
      let entry := computeEntry fs isWindows s.cachedWindowsExeExtensions pathValue
      ⟨some entry,
       { s with cachedPathValue := some pathValue, cachedExes := some entry },
       true⟩

/-- The loop body of `watchPathDirectories` (source lines 176-204): skip
directories already in `activeWatchers`, skip (swallowing errors) anything that
does not stat as a directory, otherwise establish a watch and record it.
Returns the list of directories a watch was established on, in order, together
with the final `activeWatchers` set. -/
def watchLoop (fs : FileSystem) (active : List String) :
    List String → List String → List String × List String
  | [], established => (established, active)
  | dir :: rest, established =>
    if active.contains dir then watchLoop fs active rest established
    else
      match fs.statIsDirectory dir with
      | .error _ => watchLoop fs active rest established   -- catch at line 203
      | .ok false => watchLoop fs active rest established
      | .ok true => watchLoop fs (active ++ [dir]) rest (established ++ [dir])

/-- One invocation of the free function `watchPathDirectories`
(source lines 165-205). The PATH value is read from the exact key `PATH` of
the supplied environment and, being truthiness-tested (`if (envPath)`), an
empty string yields no directories. The `activeWatchers` registry is a `const`
local of the function (line 173), so every invocation starts from an empty
registry. Returns the directories a filesystem watch was established on
during this invocation, in order. -/
def watchPathDirectories (fs : FileSystem) (isWindows : Bool)
    (env : ITerminalEnvironment) : List String :=
  let pathDirectories : List String :=
    match lookupEnv env "PATH" with
    | none => []
    | some envPath =>
      if envPath == "" then []
      else (splitOnSepChar envPath (if isWindows then ';' else ':')).foldl setAdd []
  (watchLoop fs [] pathDirectories []).1

/-- The whole-system state relevant to the configuration-change frame
property: the cache fields plus the set of directories with an established
filesystem watch (owned by `watchPathDirectories` / the host, outside the
class). -/
structure GlobalState where
  cache : CacheState
  watchers : List String
deriving DecidableEq, Repr

/-- The configuration-change handler lifted to the whole-system state: its
body (source lines 30-33) only assigns the two cache fields. -/
def onConfigurationChangedG (isWindows affects : Bool)
    (freshExts : Option WindowsExeExtensions) (g : GlobalState) : GlobalState :=
  { g with cache := onConfigurationChanged isWindows affects freshExts g.cache }

/-- An operation applied to the cache state over its lifetime. -/
inductive CacheOp
  | lookup (env : ITerminalEnvironment) (shellType : Option TerminalShellType)
  | refreshOp
  | configChange (affects : Bool) (freshExts : Option WindowsExeExtensions)

/-- Apply one operation to the cache state. -/
def applyOp (fs : FileSystem) (isWindows : Bool)
    (processEnv : ITerminalEnvironment) (s : CacheState) : CacheOp → CacheState
  | .lookup env shellType =>
    (getExecutablesInPath fs isWindows processEnv env shellType s).state
  | .refreshOp => refresh s
  | .configChange affects freshExts =>
    onConfigurationChanged isWindows affects freshExts s

/-- Run a list of operations from a starting state. -/
def runOps (fs : FileSystem) (isWindows : Bool)
    (processEnv : ITerminalEnvironment) (s : CacheState)
    (ops : List CacheOp) : CacheState :=
  ops.foldl (applyOp fs isWindows processEnv) s

/-- A cache state is reachable when some operation sequence produces it from
the post-constructor state (for a fixed platform, filesystem and process
environment). -/
def Reachable (fs : FileSystem) (isWindows : Bool)
    (processEnv : ITerminalEnvironment) (exts0 : Option WindowsExeExtensions)
    (s : CacheState) : Prop :=
  ∃ ops, s = runOps fs isWindows processEnv (initState exts0) ops

/-- Consistency of the cache fields: a stored entry always equals the fill
computed from the remembered PATH value under the currently held extension
configuration. -/
def CacheConsistent (fs : FileSystem) (isWindows : Bool) (s : CacheState) : Prop :=
  ∀ e, s.cachedExes = some e →
    ∃ k, s.cachedPathValue = some k ∧
      e = computeEntry fs isWindows s.cachedWindowsExeExtensions k

/-!
Interleaving model of the concurrent fan-out. `getExecutablesInPath` launches
`_getExecutablesInPath` for every PATH directory without awaiting
(source lines 78-80), so the scans interleave at their `await` points. The
only shared mutable state is the label `Set`. The machine below models the
scans of directories that exist and whose entries are regular files with
successful stats, making every suspension point explicit:
  * `start`: suspended before the results of `fs.stat` (line 101),
    `readDirectory` (line 107) and the first `fs.lstat` (line 119) arrive
    (no shared-state access happens between these awaits);
  * `entry i`: resumed from the `lstat` of entry `i`; the segment runs the
    synchronous code up to the `labels.has` check (line 141) and then either
    suspends at the `isExecutable` await (line 145) or, on a duplicate label,
    skips ahead and suspends at the next entry's `lstat`;
  * `pendingExec i`: resumed from the `isExecutable` await of entry `i`; the
    segment adds the resource and the label (lines 150-155, with no further
    label check) and suspends at the next entry's `lstat`.
-/

/-- Program counter of one in-flight `_getExecutablesInPath` task. -/
inductive TaskPC
  | start
  | entry (i : Nat)
  | pendingExec (i : Nat)
  | done
deriving DecidableEq, Repr

/-- One in-flight per-directory scan task over regular files. -/
structure ScanTask where
  dir : String
  sep : String
  files : List String
  pc : TaskPC
  result : List ICompletionResource
deriving DecidableEq, Repr

/-- The fan-out system: all scan tasks plus the shared label set. -/
structure FillSystem where
  tasks : List ScanTask
  labels : List String
deriving DecidableEq, Repr

/-- Run one atomic segment of a task (between two `await` suspension points),
given the executability verdict for full paths. -/
def stepTask (exec : String → Bool) (labels : List String) (t : ScanTask) :
    ScanTask × List String :=
  match t.pc with
  | .start => ({ t with pc := .entry 0 }, labels)
  | .entry i =>
    match t.files.get? i with
    | none => ({ t with pc := .done }, labels)
    | some file =>
      if labels.contains file then ({ t with pc := .entry (i + 1) }, labels)
      else ({ t with pc := .pendingExec i }, labels)
  | .pendingExec i =>
    match t.files.get? i with
    | none => ({ t with pc := .done }, labels)
    | some file =>
      let formattedPath := getFriendlyResourcePath t.dir t.sep file
      if exec formattedPath then
        ({ t with pc := .entry (i + 1),
                  result := t.result ++ [⟨file, formattedPath, .Method⟩] },
         setAdd labels file)
      else ({ t with pc := .entry (i + 1) }, labels)
  | .done => (t, labels)

/-- Run one atomic segment of the task with the given index. -/
def stepSystem (exec : String → Bool) (sys : FillSystem) (i : Nat) : FillSystem :=
  match sys.tasks.get? i with
  | none => sys
  | some t =>
    let (t2, labels2) := stepTask exec sys.labels t
    { tasks := sys.tasks.set i t2, labels := labels2 }

/-- Run the segments named by a schedule, in order. -/
def runSchedule (exec : String → Bool) (sys : FillSystem)
    (sched : List Nat) : FillSystem :=
  sched.foldl (stepSystem exec) sys

/-- Initial fan-out state for given directories and their regular-file
listings: every task suspended at its first await, empty shared label set. -/
def initFill (dirs : List (String × List String)) (sep : String) : FillSystem :=
  { tasks := dirs.map (fun d => ⟨d.1, sep, d.2, .start, []⟩), labels := [] }

/-- The merge of all per-task result sets (source lines 83-91). -/
def mergedResults (sys : FillSystem) : List ICompletionResource :=
  (sys.tasks.map ScanTask.result).flatten

/-!
Concrete filesystem fixtures used by witnesses and counterexamples.
-/

/-- A filesystem where every operation fails. -/
def emptyFS : FileSystem where
  statIsDirectory := fun _ => .error ()
  readDirectory := fun _ => .error ()
  lstatIsSymbolicLink := fun _ => .error ()
  realpath := fun _ => .error ()
  isExecutable := fun _ _ => .error ()

/-- A small POSIX-style filesystem: `/usr/bin` holds the executable `ls`,
`/opt/bin` holds the executable `mytool`; no symbolic links. -/
def demoFS : FileSystem where
  statIsDirectory := fun p => .ok (p == "/usr/bin" || p == "/opt/bin")
  readDirectory := fun p =>
    if p == "/usr/bin" then .ok [("ls", fileTypeFile)]
    else if p == "/opt/bin" then .ok [("mytool", fileTypeFile)]
    else .error ()
  lstatIsSymbolicLink := fun _ => .ok false
  realpath := fun p => .ok p
  isExecutable := fun _ _ => .ok true

/-- A filesystem whose directory `/d` holds one entry `foo`, a symbolic link
resolving to `/t/realfoo`, which is the only executable path. -/
def symlinkFS : FileSystem where
  statIsDirectory := fun p => .ok (p == "/d")
  readDirectory := fun p =>
    if p == "/d" then .ok [("foo", fileTypeFile + fileTypeSymbolicLink)]
    else .error ()
  lstatIsSymbolicLink := fun p => .ok (p == "/d/foo")
  realpath := fun p => if p == "/d/foo" then .ok "/t/realfoo" else .ok p
  isExecutable := fun p _ => .ok (p == "/t/realfoo")

/-- A Windows-style filesystem: `C:\bin` holds the executable `tool.exe`. -/
def winFS : FileSystem where
  statIsDirectory := fun p => .ok (p == "C:\\bin")
  readDirectory := fun p =>
    if p == "C:\\bin" then .ok [("tool.exe", fileTypeFile)]
    else .error ()
  lstatIsSymbolicLink := fun _ => .ok false
  realpath := fun p => .ok p
  isExecutable := fun _ _ => .ok true

/-- A filesystem whose `isExecutable` helper rejects (throws) on one path,
modelling an uncaught error at source line 145: `/e` holds the regular entries
`good` and `bad`; checking `/e/bad` throws. -/
def throwFS : FileSystem where
  statIsDirectory := fun p => .ok (p == "/e")
  readDirectory := fun p =>
    if p == "/e" then .ok [("good", fileTypeFile), ("bad", fileTypeFile)]
    else .error ()
  lstatIsSymbolicLink := fun _ => .ok false
  realpath := fun p => .ok p
  isExecutable := fun p _ => if p == "/e/bad" then .error () else .ok true

/-!
Helper lemmas.
-/

/-- Finding the first environment key that lowercases to `path` and then
reading that key's property equals reading the value of the first
environment entry whose key lowercases to `path`. -/
theorem findKey_lookup_eq (env : ITerminalEnvironment) :
    (match (env.map Prod.fst).find? (fun key => toLowerStr key == "path") with
     | some caseSensitivePathKey => lookupEnv env caseSensitivePathKey
     | none => none)
    = (env.find? (fun kv => toLowerStr kv.1 == "path")).bind Prod.snd := by
  induction env with
  | nil => rfl
  | cons hd tl ih =>
    obtain ⟨a, v⟩ := hd
    cases h : (toLowerStr a == "path") with
    | true =>
      have h1 : List.find? (fun key => toLowerStr key == "path")
          (a :: List.map Prod.fst tl) = some a :=
        List.find?_cons_of_pos _ h
      have h2 : List.find? (fun kv => toLowerStr kv.1 == "path")
          ((a, v) :: tl) = some (a, v) :=
        List.find?_cons_of_pos _ h
      have h3 : lookupEnv ((a, v) :: tl) a = v := by
        simp [lookupEnv, List.find?_cons]
      simp [List.map_cons, h1, h2, h3]
    | false =>
      have h1 : List.find? (fun key => toLowerStr key == "path")
          (a :: List.map Prod.fst tl)
          = List.find? (fun key => toLowerStr key == "path")
            (List.map Prod.fst tl) :=
        List.find?_cons_of_neg _ (by simp [h])
      have h2 : List.find? (fun kv => toLowerStr kv.1 == "path") ((a, v) :: tl)
          = List.find? (fun kv => toLowerStr kv.1 == "path") tl :=
        List.find?_cons_of_neg _ (by simp [h])
      rw [List.map_cons, h1, h2]
      cases hk : List.find? (fun key => toLowerStr key == "path")
          (List.map Prod.fst tl) with
      | none =>
        rw [hk] at ih
        simpa using ih
      | some k =>
        have hpk : (toLowerStr k == "path") = true := by
          have := List.find?_some hk
          simpa using this
        have hak : a ≠ k := by
          intro he
          rw [← he] at hpk
          rw [hpk] at h
          simp at h
        have hlk : lookupEnv ((a, v) :: tl) k = lookupEnv tl k := by
          unfold lookupEnv
          rw [List.find?_cons_of_neg _ (by simpa using hak)]
        rw [hk] at ih
        simpa [hlk] using ih

/-!
Claim theorems.
-/

/-- C1: the claim states that one cache-fill pass never produces two
completion resources with the same label. The interleaving below refutes it
on the code: directories `/a` and `/b` each hold a plain executable `foo`;
both scans pass the `labels.has` check (source line 141) before either
resumes from the `isExecutable` await (line 145) and inserts (line 155), so
the merged result carries two resources labeled `foo`, and the shared label
set (a `Set`) still holds a single `foo`. -/
theorem fanOutInterleaving_duplicateLabel :
    ((mergedResults (runSchedule (fun _ => true)
        (initFill [("/a", ["foo"]), ("/b", ["foo"])] "/")
        [0, 1, 0, 1, 0, 1])).filter (fun r => r.label == "foo")).length = 2
    ∧ (runSchedule (fun _ => true)
        (initFill [("/a", ["foo"]), ("/b", ["foo"])] "/")
        [0, 1, 0, 1, 0, 1]).labels = ["foo"] := by
  decide

/-- C5: the PATH resolution of `getExecutablesInPath` agrees with the spec's
priority policy everywhere: Git Bash reads the process-level PATH
irrespective of the supplied environment; otherwise the Windows-family
platform uses the value of the first environment entry whose key equals
`path` case-insensitively; otherwise the `PATH` key is read case-sensitively
from the supplied environment. -/
theorem resolvePathValue_eq_specPolicy (isWindows : Bool)
    (processEnv env : ITerminalEnvironment)
    (shellType : Option TerminalShellType) :
    resolvePathValue isWindows processEnv env shellType
      = resolvePathValueSpec isWindows processEnv env shellType := by
  unfold resolvePathValue resolvePathValueSpec
  cases h : (shellType == some TerminalShellType.GitBash) with
  | true => simp [h]
  | false =>
    cases isWindows with
    | false => simp [h]
    | true => simpa [h] using findKey_lookup_eq env

/-- C8: the claim states that across invocations of `watchPathDirectories` an
already-watched directory is never watched again. The registry
`activeWatchers` is a local of each invocation (source line 173), so a second
invocation with the same environment establishes a second watch on
`/usr/bin`: each of two successive invocations returns it in its established
list, for two active watches on one directory path. -/
theorem watchPathDirectories_rewatches_on_second_invocation :
    watchPathDirectories demoFS false [("PATH", some "/usr/bin")] = ["/usr/bin"]
    ∧ (watchPathDirectories demoFS false [("PATH", some "/usr/bin")]
        ++ watchPathDirectories demoFS false [("PATH", some "/usr/bin")]).count
        "/usr/bin" = 2 := by
  decide

/-- C3: a lookup returns absent exactly when no PATH value resolves; in
particular any environment without a PATH-equivalent key (under no shell
hint) yields absent, and a resolved PATH value always yields a (possibly
empty) cache entry. -/
theorem getExecutablesInPath_absent_iff_noPathResolved (fs : FileSystem)
    (isWindows : Bool) (processEnv env : ITerminalEnvironment)
    (shellType : Option TerminalShellType) (s : CacheState) :
    ((getExecutablesInPath fs isWindows processEnv env shellType s).result = none
      ↔ resolvePathValue isWindows processEnv env shellType = none)
    ∧ ((∀ kv ∈ env, toLowerStr kv.1 ≠ "path") → shellType = none →
        (getExecutablesInPath fs isWindows processEnv env shellType s).result = none) := by
  have hmain : (getExecutablesInPath fs isWindows processEnv env shellType s).result = none
      ↔ resolvePathValue isWindows processEnv env shellType = none := by
    cases hr : resolvePathValue isWindows processEnv env shellType with
    | none => simp [getExecutablesInPath, hr]
    | some p =>
      simp only [getExecutablesInPath, hr]
      by_cases hc : s.cachedExes.isSome ∧ s.cachedPathValue = some p
      · rw [if_pos hc]
        obtain ⟨e, he⟩ := Option.isSome_iff_exists.mp hc.1
        simp [he]
      · rw [if_neg hc]
        simp
  refine ⟨hmain, fun hnp hst => ?_⟩
  subst hst
  have hres : resolvePathValue isWindows processEnv env none = none := by
    cases isWindows with
    | true =>
      have hfind : List.find? (fun key => toLowerStr key == "path")
          (env.map Prod.fst) = none := by
        rw [List.find?_eq_none]
        intro x hx
        simp only [List.mem_map] at hx
        obtain ⟨kv, hkv, rfl⟩ := hx
        simp [hnp kv hkv]
      simp [resolvePathValue, hfind]
    | false =>
      have hfind : List.find? (fun kv => kv.1 == "PATH") env = none := by
        rw [List.find?_eq_none]
        intro kv hkv hbe
        have h1 : kv.1 = "PATH" := by simpa using hbe
        exact hnp kv hkv (by rw [h1]; decide)
      simp [resolvePathValue, lookupEnv, hfind]
  exact hmain.mpr hres

/-- C3 witness: an environment with no PATH-equivalent key gives an absent
result. -/
theorem getExecutablesInPath_absent_iff_noPathResolved_witness :
    (getExecutablesInPath emptyFS false [] [("HOME", some "/root")] none
      (initState none)).result = none :=
  (getExecutablesInPath_absent_iff_noPathResolved emptyFS false []
      [("HOME", some "/root")] none (initState none)).2 (by decide) rfl

/-- C4: `refresh` unconditionally clears the cached entry and the remembered
PATH value, touches nothing else (and, being a total function, never
throws), and the next lookup with any resolvable PATH performs a rescan. -/
theorem refresh_clears_and_forces_rescan (s : CacheState) :
    (refresh s).cachedExes = none
    ∧ (refresh s).cachedPathValue = none
    ∧ (refresh s).cachedWindowsExeExtensions = s.cachedWindowsExeExtensions
    ∧ ∀ fs isWindows processEnv env shellType p,
        resolvePathValue isWindows processEnv env shellType = some p →
        (getExecutablesInPath fs isWindows processEnv env shellType (refresh s)).didScan
          = true := by
  refine ⟨rfl, rfl, rfl, ?_⟩
  intro fs isW penv env st p hp
  simp [getExecutablesInPath, hp, refresh]

/-- C4 witness: refreshing a filled cache clears it and the following lookup
with the unchanged PATH string rescans. -/
theorem refresh_clears_and_forces_rescan_witness :
    (getExecutablesInPath demoFS false [] [("PATH", some "/usr/bin")] none
      (refresh ⟨some "/usr/bin", none,
        some (computeEntry demoFS false none "/usr/bin")⟩)).didScan = true :=
  (refresh_clears_and_forces_rescan
      ⟨some "/usr/bin", none, some (computeEntry demoFS false none "/usr/bin")⟩).2.2.2
    demoFS false [] [("PATH", some "/usr/bin")] none "/usr/bin" (by decide)

/-- C6: the per-directory scanner returns absent, raising nothing, when the
existence check fails or reports a non-directory, when the listing fails, and
when the entry loop hits an uncaught error, in which case no partial result
set escapes (though label-set insertions made before the error persist in the
shared set). -/
theorem scanDirectory_absent_on_missing_or_error (fs : FileSystem)
    (exts : Option WindowsExeExtensions) (dirPath sep : String)
    (labels : List String) :
    (fs.statIsDirectory dirPath = .error () →
      _getExecutablesInPath fs exts dirPath sep labels = (none, labels))
    ∧ (fs.statIsDirectory dirPath = .ok false →
        _getExecutablesInPath fs exts dirPath sep labels = (none, labels))
    ∧ (fs.statIsDirectory dirPath = .ok true →
        fs.readDirectory dirPath = .error () →
        _getExecutablesInPath fs exts dirPath sep labels = (none, labels))
    ∧ ∀ files labels2, fs.statIsDirectory dirPath = .ok true →
        fs.readDirectory dirPath = .ok files →
        scanEntries fs exts dirPath sep files ([], labels) = .error labels2 →
        _getExecutablesInPath fs exts dirPath sep labels = (none, labels2) := by
  refine ⟨fun h => ?_, fun h => ?_, fun h1 h2 => ?_, fun files labels2 h1 h2 h3 => ?_⟩
  · simp [_getExecutablesInPath, h]
  · simp [_getExecutablesInPath, h]
  · simp [_getExecutablesInPath, h1, h2]
  · simp [_getExecutablesInPath, h1, h2, h3]

/-- C6 witness: a directory whose `isExecutable` check throws on its second
entry contributes nothing, even though its first entry had already been
accepted. -/
theorem scanDirectory_absent_on_missing_or_error_witness :
    _getExecutablesInPath throwFS none "/e" "/" [] = (none, ["good"]) :=
  (scanDirectory_absent_on_missing_or_error throwFS none "/e" "/" []).2.2.2
    [("good", fileTypeFile), ("bad", fileTypeFile)] ["good"] rfl rfl rfl

/-- C7 counterexample: the claim promises that a successfully resolving
symbolic link with an executable target always yields a resource documented
as link -> target, but when the entry's name is already in the shared label
set (here seeded by another directory of the same pass) the scanner skips the
entry at the `labels.has` check (source line 141), so the result set holds no
such resource. -/
theorem scanDirectory_symlink_suppressed_counterexample :
    symlinkFS.lstatIsSymbolicLink "/d/foo" = .ok true
    ∧ symlinkFS.realpath "/d/foo" = .ok "/t/realfoo"
    ∧ symlinkFS.isExecutable "/t/realfoo" none = .ok true
    ∧ (_getExecutablesInPath symlinkFS none "/d" "/" ["foo"]).1 = some []
    ∧ ¬ ∃ r ∈ (_getExecutablesInPath symlinkFS none "/d" "/" ["foo"]).1.getD [],
        r.documentation = "/d/foo -> /t/realfoo" := by
  exact ⟨rfl, rfl, rfl, by decide, by decide⟩

/-- C7 (amended): for a directory entry that is a symbolic link, a failing
resolution skips the entry; on successful resolution the executability
predicate is applied to the resolved target, and when the target is
executable AND the entry's name is not already in the shared label set, the
result contains a resource documented as the link path, a literal arrow, and
the target path. -/
theorem scanDirectory_symlink_resolved_behaviour (fs : FileSystem)
    (exts : Option WindowsExeExtensions) (dirPath sep file : String)
    (fileType : Nat) (labels : List String)
    (hft : (fileType == fileTypeUnknown || fileType == fileTypeDirectory) = false)
    (hstat : fs.statIsDirectory dirPath = .ok true)
    (hread : fs.readDirectory dirPath = .ok [(file, fileType)])
    (hlink : fs.lstatIsSymbolicLink (resourceFsPath dirPath sep file) = .ok true) :
    (fs.realpath (resourceFsPath dirPath sep file) = .error () →
      _getExecutablesInPath fs exts dirPath sep labels = (some [], labels))
    ∧ ∀ target, fs.realpath (resourceFsPath dirPath sep file) = .ok target →
        (fs.isExecutable target exts = .ok true → file ∉ labels →
          _getExecutablesInPath fs exts dirPath sep labels =
            (some [⟨file, resourceFsPath dirPath sep file ++ " -> " ++ target,
                .Method⟩],
             labels ++ [file]))
        ∧ (fs.isExecutable target exts = .ok false →
            _getExecutablesInPath fs exts dirPath sep labels = (some [], labels)) := by
  refine ⟨fun h => ?_, fun target ht => ⟨fun he hnl => ?_, fun he => ?_⟩⟩
  · simp [_getExecutablesInPath, hstat, hread, scanEntries, processEntry, hft, hlink, h]
  · simp [_getExecutablesInPath, hstat, hread, scanEntries, processEntry, hft, hlink,
      ht, he, hnl, setAdd]
  · simp [_getExecutablesInPath, hstat, hread, scanEntries, processEntry, hft, hlink,
      ht, he]

/-- C7 witness: a fresh scan of `/d`, whose single entry is a symbolic link
to the executable `/t/realfoo`, yields exactly the arrow-documented
resource. -/
theorem scanDirectory_symlink_resolved_behaviour_witness :
    _getExecutablesInPath symlinkFS none "/d" "/" [] =
      (some [⟨"foo", "/d/foo -> /t/realfoo", .Method⟩], ["foo"]) :=
  ((scanDirectory_symlink_resolved_behaviour symlinkFS none "/d" "/" "foo"
      (fileTypeFile + fileTypeSymbolicLink) [] (by decide) rfl
      rfl rfl).2 "/t/realfoo" rfl).1 rfl (by decide)

/-- C9: on the Windows-family platform an affecting configuration change
stores the freshly read extension configuration and clears the cached entry,
leaves the remembered PATH value and every watch registration untouched, and
forces the next lookup (for any resolvable PATH) to rescan. -/
theorem onConfigurationChanged_updates_and_clears_only_cache (g : GlobalState)
    (freshExts : Option WindowsExeExtensions) :
    (onConfigurationChangedG true true freshExts g).cache.cachedWindowsExeExtensions
        = freshExts
    ∧ (onConfigurationChangedG true true freshExts g).cache.cachedExes = none
    ∧ (onConfigurationChangedG true true freshExts g).cache.cachedPathValue
        = g.cache.cachedPathValue
    ∧ (onConfigurationChangedG true true freshExts g).watchers = g.watchers
    ∧ ∀ fs processEnv env shellType p,
        resolvePathValue true processEnv env shellType = some p →
        (getExecutablesInPath fs true processEnv env shellType
          (onConfigurationChangedG true true freshExts g).cache).didScan = true := by
  refine ⟨rfl, rfl, rfl, rfl, ?_⟩
  intro fs penv env st p hp
  simp [getExecutablesInPath, hp, onConfigurationChangedG, onConfigurationChanged]

/-- C9 witness: a configuration change on a filled Windows cache clears the
entry and the next lookup with the unchanged PATH rescans. -/
theorem onConfigurationChanged_updates_and_clears_only_cache_witness :
    (getExecutablesInPath winFS true [] [("Path", some "C:\\bin")] none
      (onConfigurationChangedG true true (some [(".exe", some true)])
        ⟨⟨some "C:\\bin", none, some (computeEntry winFS true none "C:\\bin")⟩,
         ["C:\\bin"]⟩).cache).didScan = true :=
  (onConfigurationChanged_updates_and_clears_only_cache
      ⟨⟨some "C:\\bin", none, some (computeEntry winFS true none "C:\\bin")⟩,
       ["C:\\bin"]⟩ (some [(".exe", some true)])).2.2.2.2
    winFS [] [("Path", some "C:\\bin")] none "C:\\bin" (by decide)

/-- C10: `watchPathDirectories` reads only the exact `PATH` key of the
supplied environment: whenever that exact key yields nothing, no watch is
established; and for the differently-cased key `Path` on the Windows-family
platform it establishes no watches even though `getExecutablesInPath`
resolves the same environment case-insensitively and returns candidates. -/
theorem watchPathDirectories_readsExactPATHKey :
    (∀ fs isWindows env, lookupEnv env "PATH" = none →
        watchPathDirectories fs isWindows env = [])
    ∧ watchPathDirectories winFS true [("Path", some "C:\\bin")] = []
    ∧ resolvePathValue true [] [("Path", some "C:\\bin")] none = some "C:\\bin"
    ∧ (getExecutablesInPath winFS true [] [("Path", some "C:\\bin")] none
        (initState none)).result
        = some ⟨[⟨"tool.exe", "C:\\bin\\tool.exe", .Method⟩], ["tool.exe"]⟩ := by
  refine ⟨?_, by decide, by decide, by decide⟩
  intro fs isW env h
  simp [watchPathDirectories, h, watchLoop]

/-- C10 witness: an environment carrying only a differently-cased `Path` key
establishes no watches. -/
theorem watchPathDirectories_readsExactPATHKey_witness :
    watchPathDirectories emptyFS false [("Path", some "/x")] = [] :=
  watchPathDirectories_readsExactPATHKey.1 emptyFS false
    [("Path", some "/x")] (by decide)

/-- Case analysis of the state left behind by one lookup: either untouched,
or replaced by a publication of the entry computed from the resolved PATH
value under the currently held extension configuration. -/
theorem lookup_state_cases (fs : FileSystem) (isWindows : Bool)
    (processEnv env : ITerminalEnvironment)
    (shellType : Option TerminalShellType) (s : CacheState) :
    (getExecutablesInPath fs isWindows processEnv env shellType s).state = s
    ∨ ∃ p, resolvePathValue isWindows processEnv env shellType = some p ∧
        (getExecutablesInPath fs isWindows processEnv env shellType s).state =
          { s with cachedPathValue := some p,
                   cachedExes :=
                     some (computeEntry fs isWindows
                       s.cachedWindowsExeExtensions p) } := by
  cases hr : resolvePathValue isWindows processEnv env shellType with
  | none => left; simp [getExecutablesInPath, hr]
  | some p =>
    by_cases hc : s.cachedExes.isSome ∧ s.cachedPathValue = some p
    · left; simp [getExecutablesInPath, hr, hc]
    · right; exact ⟨p, rfl, by simp [getExecutablesInPath, hr, hc]⟩

/-- Applying any operation preserves cache consistency. -/
theorem cacheConsistent_applyOp (fs : FileSystem) (isWindows : Bool)
    (processEnv : ITerminalEnvironment) (s : CacheState) (op : CacheOp)
    (h : CacheConsistent fs isWindows s) :
    CacheConsistent fs isWindows (applyOp fs isWindows processEnv s op) := by
  cases op with
  | lookup env shellType =>
    have heq : applyOp fs isWindows processEnv s (.lookup env shellType)
        = (getExecutablesInPath fs isWindows processEnv env shellType s).state := rfl
    rw [heq]
    rcases lookup_state_cases fs isWindows processEnv env shellType s with
      hs | ⟨p, hp, hs⟩
    · rw [hs]; exact h
    · rw [hs]
      intro e he
      simp only at he
      refine ⟨p, rfl, ?_⟩
      exact (Option.some.inj he).symm
  | refreshOp =>
    intro e he
    simp [applyOp, refresh] at he
  | configChange affects freshExts =>
    intro e he
    simp only [applyOp, onConfigurationChanged] at he ⊢
    by_cases hw : (isWindows && affects) = true
    · rw [if_pos hw] at he
      simp at he
    · rw [if_neg hw] at he ⊢
      exact h e he

/-- Running any operation sequence preserves cache consistency. -/
theorem cacheConsistent_runOps (fs : FileSystem) (isWindows : Bool)
    (processEnv : ITerminalEnvironment) (ops : List CacheOp) :
    ∀ s, CacheConsistent fs isWindows s →
      CacheConsistent fs isWindows (runOps fs isWindows processEnv s ops) := by
  induction ops with
  | nil => exact fun s h => h
  | cons op rest ih =>
    intro s h
    exact ih _ (cacheConsistent_applyOp fs isWindows processEnv s op h)

/-- Every reachable cache state is consistent. -/
theorem cacheConsistent_of_reachable (fs : FileSystem) (isWindows : Bool)
    (processEnv : ITerminalEnvironment) (exts0 : Option WindowsExeExtensions)
    (s : CacheState)
    (h : Reachable fs isWindows processEnv exts0 s) :
    CacheConsistent fs isWindows s := by
  obtain ⟨ops, rfl⟩ := h
  apply cacheConsistent_runOps
  intro e he
  simp [initState] at he

/-- C2: on any reachable cache state, a lookup that resolves PATH value `p`
skips the scan exactly when an entry is cached under a remembered PATH value
equal to `p`; a skipped scan returns the stored entry itself with the state
untouched; and every returned entry is the one computed for `p` (never for a
different PATH string). -/
theorem getExecutablesInPath_cacheServe_correct (fs : FileSystem)
    (isWindows : Bool) (processEnv : ITerminalEnvironment)
    (exts0 : Option WindowsExeExtensions) (s : CacheState)
    (hs : Reachable fs isWindows processEnv exts0 s)
    (env : ITerminalEnvironment) (shellType : Option TerminalShellType)
    (p : String)
    (hp : resolvePathValue isWindows processEnv env shellType = some p) :
    ((getExecutablesInPath fs isWindows processEnv env shellType s).didScan = false
      ↔ s.cachedExes.isSome ∧ s.cachedPathValue = some p)
    ∧ ((getExecutablesInPath fs isWindows processEnv env shellType s).didScan = false →
        (getExecutablesInPath fs isWindows processEnv env shellType s).result
            = s.cachedExes
        ∧ (getExecutablesInPath fs isWindows processEnv env shellType s).state = s)
    ∧ ∀ e, (getExecutablesInPath fs isWindows processEnv env shellType s).result
          = some e →
        e = computeEntry fs isWindows s.cachedWindowsExeExtensions p := by
  have hcons := cacheConsistent_of_reachable fs isWindows processEnv exts0 s hs
  by_cases hc : s.cachedExes.isSome ∧ s.cachedPathValue = some p
  · refine ⟨by simp [getExecutablesInPath, hp, hc],
      fun _ => by simp [getExecutablesInPath, hp, hc], ?_⟩
    intro e he
    simp only [getExecutablesInPath, hp, if_pos hc] at he
    obtain ⟨k, hk, hek⟩ := hcons e he
    have hkp : k = p := Option.some.inj (hk.symm.trans hc.2)
    rw [hek, hkp]
  · refine ⟨by simp [getExecutablesInPath, hp, hc],
      fun hfalse => ?_, ?_⟩
    · exfalso
      simp [getExecutablesInPath, hp, hc] at hfalse
    · intro e he
      simp only [getExecutablesInPath, hp, if_neg hc] at he
      exact (Option.some.inj he).symm

/-- C2 witness: a second lookup with the unchanged PATH string on the state
reached by a first lookup is served without a scan. -/
theorem getExecutablesInPath_cacheServe_correct_witness :
    (getExecutablesInPath demoFS false [] [("PATH", some "/usr/bin")] none
      (runOps demoFS false [] (initState none)
        [CacheOp.lookup [("PATH", some "/usr/bin")] none])).didScan = false :=
  ((getExecutablesInPath_cacheServe_correct demoFS false [] none
      (runOps demoFS false [] (initState none)
        [CacheOp.lookup [("PATH", some "/usr/bin")] none])
      ⟨[CacheOp.lookup [("PATH", some "/usr/bin")] none], rfl⟩
      [("PATH", some "/usr/bin")] none "/usr/bin" (by decide)).1).mpr
    (by constructor <;> decide)

end PathExecCache
